import Mathlib

/-!
Verification of the RACAG chunk-extraction engine and query CLI.

This file gives a shallow embedding of the two Python modules
`racag/chunking/code_chunker.py` and `racag/query_cli.py` and proves the
specified properties about them.

Modelling conventions:
* A Python `str` is modelled as a `List Char` wherever the code indexes or
  slices it (Python slicing is by code point), and as a Lean `String` where
  only concatenation / formatting happens (f-strings concatenate the decimal
  rendering of integers, which is `Nat.repr` for the non-negative row
  numbers involved).
* The tree-sitter syntax tree is an inductive `TSNode` exposing exactly the
  read contract the code uses: a kind label, zero-based (row, col) start/end
  points, zero-based start/end byte offsets, and the ordered children.
* `pathlib.Path` is modelled by the record `PyPath` of the three string
  views the code reads (`str(path)`, `path.name`, `path.stem`).
* Exceptions are modelled with `Except`; the capabilities consumed by the
  CLI (embedding, search, JSON dumping, float formatting) are parameters.
-/

namespace Racag

/-- A tree-sitter point: zero-based (row, column). -/
structure Point where
  row : Nat
  col : Nat
deriving DecidableEq, Repr

/-- A tree-sitter syntax-tree node, exposing the fields read by
`code_chunker.py`: `node.type`, `node.start_point`, `node.end_point`,
`node.start_byte`, `node.end_byte`, `node.children`. -/
inductive TSNode : Type where
  | mk (kind : String) (startPoint endPoint : Point) (startByte endByte : Nat)
       (children : List TSNode)

/-- `node.type`. -/
def TSNode.type : TSNode → String
  | .mk t _ _ _ _ _ => t

/-- `node.start_point`. -/
def TSNode.startPoint : TSNode → Point
  | .mk _ sp _ _ _ _ => sp

/-- `node.end_point`. -/
def TSNode.endPoint : TSNode → Point
  | .mk _ _ ep _ _ _ => ep

/-- `node.start_byte`. -/
def TSNode.startByte : TSNode → Nat
  | .mk _ _ _ sb _ _ => sb

/-- `node.end_byte`. -/
def TSNode.endByte : TSNode → Nat
  | .mk _ _ _ _ eb _ => eb

/-- `node.children`. -/
def TSNode.children : TSNode → List TSNode
  | .mk _ _ _ _ _ cs => cs

/-- The views of a `pathlib.Path` read by the chunker:
`str(path)`, `path.name`, `path.stem`. -/
structure PyPath where
  full : String
  name : String
  stem : String

/-- The allow-list tested by
`node.type in ["class_declaration", "struct_declaration", "function_declaration"]`. -/
def allowedKinds : List String :=
  ["class_declaration", "struct_declaration", "function_declaration"]

/-- Python `s.replace("_declaration", "")` on the character list of `s`:
scan left to right, delete each (leftmost, non-overlapping) occurrence of
the pattern. -/
def replaceDecl : List Char → List Char
  | '_' :: 'd' :: 'e' :: 'c' :: 'l' :: 'a' :: 'r' :: 'a' :: 't' :: 'i' :: 'o' :: 'n' :: cs =>
      replaceDecl cs
  | c :: cs => c :: replaceDecl cs
  | [] => []

/-- `node.type.replace("_declaration", "")` (line 39 of the chunker). -/
def stripDecl (s : String) : String :=
  ⟨replaceDecl s.data⟩

/-- `get_text` (lines 29-30): `code[node.start_byte:node.end_byte]`, i.e. a
*code-point* slice of the decoded text at the node's *byte* offsets. -/
def get_text (code : List Char) (n : TSNode) : List Char :=
  (code.drop n.startByte).take (n.endByte - n.startByte)

/-- The unified RACAG chunk record (the dict built at lines 41-53). -/
structure Chunk where
  chunk_id : String
  chunk_text : List Char
  language : String
  framework : String
  module : String
  function : Option String
  file_path : String
  start_line : Nat
  end_line : Nat
  tags : List String
  lines : String
deriving DecidableEq, Repr

/-- The chunk record appended for a matched node (lines 35-53). -/
def mkChunk (fp : PyPath) (code : List Char) (n : TSNode) : Chunk where
  chunk_id := fp.name ++ "::" ++ n.type ++ "_" ++ Nat.repr n.startPoint.row
  chunk_text := get_text code n
  language := "swift"
  framework := "swiftui"
  module := fp.stem
  function := none
  file_path := fp.full
  start_line := n.startPoint.row + 1
  end_line := n.endPoint.row + 1
  tags := [stripDecl n.type]
  lines := Nat.repr (n.startPoint.row + 1) ++ "-" ++ Nat.repr (n.endPoint.row + 1)

mutual

/-- The `recurse` walk (lines 32-58): append a chunk when the node's kind is
in the allow-list, then recurse into all children; the accumulated `chunks`
list is the concatenation in visit order. -/
def extractChunks (fp : PyPath) (code : List Char) : TSNode → List Chunk
  | .mk t sp ep sb eb cs =>
      (if t ∈ allowedKinds then [mkChunk fp code (.mk t sp ep sb eb cs)] else [])
        ++ extractChunksL fp code cs

/-- `recurse` applied to each child in order. -/
def extractChunksL (fp : PyPath) (code : List Char) : List TSNode → List Chunk
  | [] => []
  | c :: cs => extractChunks fp code c ++ extractChunksL fp code cs

end

mutual

/-- Depth-first pre-order listing of the nodes of a tree. -/
def preorderN : TSNode → List TSNode
  | .mk t sp ep sb eb cs => .mk t sp ep sb eb cs :: preorderL cs

/-- Pre-order listing of a forest, left to right. -/
def preorderL : List TSNode → List TSNode
  | [] => []
  | c :: cs => preorderN c ++ preorderL cs

end

/-- The nodes of the tree whose kind is in the allow-list, in visit order. -/
def matchedNodes (n : TSNode) : List TSNode :=
  (preorderN n).filter (fun m => decide (m.type ∈ allowedKinds))

mutual

/-- Does some node of the tree have an allow-listed kind? -/
def hasMatch : TSNode → Bool
  | .mk t _ _ _ _ cs => decide (t ∈ allowedKinds) || hasMatchL cs

/-- Does some node of the forest have an allow-listed kind? -/
def hasMatchL : List TSNode → Bool
  | [] => false
  | c :: cs => hasMatch c || hasMatchL cs

end

mutual

/-- Well-formedness of parser coordinates: every node's start row is at most
its end row, and every child's row span lies inside its parent's. This is
the read contract of the external parser, assumed where a claim needs it. -/
def spanWF : TSNode → Bool
  | .mk _ sp ep _ _ cs => decide (sp.row ≤ ep.row) && spanWFL sp ep cs

/-- Children of a node with points `sp`, `ep` are inside `[sp.row, ep.row]`
and themselves well formed. -/
def spanWFL (sp ep : Point) : List TSNode → Bool
  | [] => true
  | c :: cs =>
      (decide (sp.row ≤ c.startPoint.row) && decide (c.endPoint.row ≤ ep.row) && spanWF c)
        && spanWFL sp ep cs

end

/-- `m` occurs in the subtree rooted at `n`. -/
inductive InSubtree : TSNode → TSNode → Prop where
  | refl (n : TSNode) : InSubtree n n
  | step {m c n : TSNode} : c ∈ n.children → InSubtree m c → InSubtree m n

/-! ### UTF-8 byte arithmetic, for the byte-exactness claim

Tree-sitter byte offsets refer to `bytes(code, "utf8")`.  To compare the
code's code-point slice with the byte-exact substring the spec demands, we
compute byte-offset slices of a character list directly. -/

/-- Number of bytes of the UTF-8 encoding of a character. -/
def utf8Size (c : Char) : Nat :=
  if c.toNat < 0x80 then 1
  else if c.toNat < 0x800 then 2
  else if c.toNat < 0x10000 then 3
  else 4

/-- Drop the characters occupying the first `b` bytes of the UTF-8
encoding of the text. -/
def dropBytes : Nat → List Char → List Char
  | 0, l => l
  | _ + 1, [] => []
  | b + 1, c :: cs => dropBytes (b + 1 - utf8Size c) cs

/-- Take the characters occupying the first `b` bytes of the UTF-8
encoding of the text. -/
def takeBytes : Nat → List Char → List Char
  | 0, _ => []
  | _ + 1, [] => []
  | b + 1, c :: cs => c :: takeBytes (b + 1 - utf8Size c) cs

/-- The decoded text between byte offsets `sb` and `eb` of the UTF-8
encoding: the byte-exact substring the spec asks for (at offsets that fall
on character boundaries). -/
def byteSlice (code : List Char) (sb eb : Nat) : List Char :=
  takeBytes (eb - sb) (dropBytes sb code)

/-! ### The source loader and the full extraction entry point -/

/-- Outcome of the strict-UTF-8 `path.read_text(encoding="utf-8")` call:
decoded text, a `UnicodeDecodeError`, or any other `OSError`-style failure
(missing file, permissions, I/O), carrying its message. -/
inductive ReadOutcome : Type where
  | ok (text : List Char)
  | decodeError
  | ioError (msg : String)

/-- The diagnostic printed on the decode-fallback path (line 23). -/
def nonUtf8Warning (filePath : String) : String :=
  "⚠️ Non-UTF8 bytes replaced in " ++ filePath

/-- `extract_code_chunks` (lines 12-59).  Inputs model the consumed
capabilities: `strict` is the outcome of the strict decode, `replaced` the
text produced by `errors="replace"` re-decoding, `parse` the tree-sitter
parser.  Returns the chunk list together with the printed diagnostics, or
propagates the I/O error. -/
def extract_code_chunks (fp : PyPath) (strict : ReadOutcome) (replaced : List Char)
    (parse : List Char → TSNode) : Except String (List Chunk × List String) :=
  match strict with
  | .ok code => .ok (extractChunks fp code (parse code), [])
  | .decodeError =>
      .ok (extractChunks fp replaced (parse replaced), [nonUtf8Warning fp.full])
  | .ioError m => .error m

/-! ### The query CLI (`query_cli.py`) -/

/-- A record returned by the search capability, as the rendering code reads
it: `chunk.get("score", 0)`, `chunk.get("metadata", {}).get("file_path",
"unknown")`, `...get("lines", "?-?")`.  Absent keys are `none`.  The score
type `S` is abstract (a Python float). -/
structure RChunk (S : Type) where
  score : Option S
  file_path : Option String
  lines : Option String
deriving DecidableEq

/-- The dict returned by `query_racag_cli` (lines 44-60); `error` is the
key present only on the failure path. -/
structure QueryResult (S : Type) where
  success : Bool
  query : String
  results_count : Nat
  results : List (RChunk S)
  error : Option String
  message : String
deriving DecidableEq

/-- `query_racag_cli` (lines 25-60): embed the question, search, and wrap;
any exception from either capability is caught and converted into the
structured failure dict. -/
def query_racag_cli {S E : Type} (embed : String → Except String E)
    (search : E → Nat → Except String (List (RChunk S)))
    (question : String) (top_k : Nat) : QueryResult S :=
  match embed question with
  | .error e =>
      { success := false
        query := question
        results_count := 0
        results := []
        error := some e
        message := "Query failed: " ++ e }
  | .ok v =>
      match search v top_k with
      | .error e =>
          { success := false
            query := question
            results_count := 0
            results := []
            error := some e
            message := "Query failed: " ++ e }
      | .ok results =>
          { success := true
            query := question
            results_count := results.length
            results := results
            error := none
            message := "Retrieved " ++ Nat.repr results.length ++ " relevant chunks" }

/-- The `--format` choice of `main`. -/
inductive OutFormat : Type where
  | json
  | text

/-- What `main` emits to the streams and returns as exit status. -/
structure CliOutcome where
  stdout : List String
  stderr : List String
  exitCode : Nat

/-- The three lines printed for one entry of the human-readable listing
(lines 100-104): rank, bracketed score rendered by the `:.3f` three-decimal
formatter `fmt3`, file path, line range, and the blank `print()`. -/
def entryLines {S : Type} (fmt3 : S → String) (zero : S) (i : Nat) (c : RChunk S) :
    List String :=
  [Nat.repr i ++ ". [" ++ fmt3 (c.score.getD zero) ++ "] " ++ c.file_path.getD "unknown",
   "   Lines " ++ c.lines.getD "?-?",
   ""]

/-- The output phase of `main` (lines 92-109), given the already-computed
query result.  `renderJson` models `json.dumps(result, indent=2)`, `fmt3`
the `:.3f` float formatter and `zero` the Python float `0` default. -/
def mainOutput {S : Type} (fmt3 : S → String) (zero : S)
    (renderJson : QueryResult S → String) (format : OutFormat)
    (r : QueryResult S) : CliOutcome :=
  match format with
  | .json => ⟨[renderJson r], [], if r.success then 0 else 1⟩
  | .text =>
      if r.success then
        ⟨("Query: " ++ r.query)
           :: ("Results: " ++ Nat.repr r.results_count ++ "\n")
           :: ((r.results.take 10).enum.flatMap fun p => entryLines fmt3 zero (p.1 + 1) p.2),
         [], 0⟩
      else
        ⟨[], ["Error: " ++ r.message], 1⟩

/-! ### Spec-side definition for the refinement claim C10 -/

/-- Modelled from the spec's words: "derive the displayed kind by stripping
a language-specific suffix (e.g. a trailing `_declaration` marker)" — strip
one trailing `_declaration` suffix if present, else leave the kind alone. -/
def stripDeclSuffixSpec (s : String) : String :=
  if "_declaration".data.isSuffixOf s.data then ⟨s.data.take (s.data.length - 12)⟩ else s

/-! ### Concrete inputs used to witness the theorems -/

/-- A path value for a file invoked as `Sample.swift`. -/
def exFp : PyPath := ⟨"Sample.swift", "Sample.swift", "Sample"⟩

/-- Decoded source `"class A {\n  func f() {\n  }\n}\n"` (all ASCII; the
braces are written with hex escapes below). -/
def exCode : List Char := "class A \x7b\n  func f() \x7b\n  \x7d\n\x7d\n".data

/-- The `func f` node: rows 1-2, bytes 12-26. -/
def exFun : TSNode := .mk "function_declaration" ⟨1, 2⟩ ⟨2, 3⟩ 12 26 []

/-- The `class A` node: rows 0-3, bytes 0-28, containing `exFun`. -/
def exClass : TSNode := .mk "class_declaration" ⟨0, 0⟩ ⟨3, 1⟩ 0 28 [exFun]

/-- The parse-tree root of `exCode`. -/
def exRoot : TSNode := .mk "source_file" ⟨0, 0⟩ ⟨4, 0⟩ 0 29 [exClass]

/-- A five-line function declaration starting at 1-based source line 10
(0-based row 9), for the `_9` chunk-id scenario. -/
def exFun9 : TSNode := .mk "function_declaration" ⟨9, 0⟩ ⟨13, 1⟩ 100 150 []

/-- A root containing only `exFun9`. -/
def exRoot9 : TSNode := .mk "source_file" ⟨0, 0⟩ ⟨14, 0⟩ 0 151 [exFun9]

/-- A parser stub returning an empty `source_file` tree, as tree-sitter
does for the empty file. -/
def exEmptyParse : List Char → TSNode := fun _ => .mk "source_file" ⟨0, 0⟩ ⟨0, 0⟩ 0 0 []

/-- Decoded source `"é\nfunc a() {}"`: one non-ASCII character before a
function declaration.  Its UTF-8 encoding is 14 bytes while it has 13
characters, so tree-sitter byte offsets and code-point indices disagree. -/
def exC1code : List Char := "é\nfunc a() \x7b\x7d".data

/-- The `func a` node of `exC1code`: row 1, bytes 3-14 of the UTF-8
encoding (`é` occupies bytes 0-1). -/
def exC1fun : TSNode := .mk "function_declaration" ⟨1, 0⟩ ⟨1, 11⟩ 3 14 []

/-- The parse-tree root of `exC1code`. -/
def exC1root : TSNode := .mk "source_file" ⟨0, 0⟩ ⟨1, 11⟩ 0 14 [exC1fun]

/-- A path value for the non-ASCII witness file. -/
def exC1fp : PyPath := ⟨"Acc.swift", "Acc.swift", "Acc"⟩

/-- An embedding capability that always raises. -/
def embedFailEx : String → Except String Unit := fun _ => .error "boom"

/-- An embedding capability that always succeeds. -/
def embedOkEx : String → Except String Unit := fun _ => .ok ()

/-- A search capability that always raises. -/
def searchFailEx : Unit → Nat → Except String (List (RChunk Unit)) :=
  fun _ _ => .error "index unavailable"

/-- A search capability returning one record. -/
def searchOkEx : Unit → Nat → Except String (List (RChunk Unit)) :=
  fun _ _ => .ok [⟨none, none, none⟩]

/-- Twelve search records, to exercise the ten-entry display cap. -/
def rep12 : List (RChunk Unit) := List.replicate 12 ⟨none, some "A.swift", some "1-3"⟩

/-- A search capability returning twelve records. -/
def searchRep12 : Unit → Nat → Except String (List (RChunk Unit)) :=
  fun _ _ => .ok rep12

/-- A stand-in for the `:.3f` float formatter in witnesses. -/
def fmt3Ex : Unit → String := fun _ => "0.000"

/-- A stand-in for `json.dumps` in witnesses. -/
def renderJsonEx : QueryResult Unit → String := fun _ => "\x7b\x7d"

/-! ### Backbone lemmas about the traversal -/

/-- Structural induction principle for `TSNode` through its child list. -/
theorem TSNode.my_ind {P : TSNode → Prop}
    (h : ∀ t sp ep sb eb cs, (∀ c ∈ cs, P c) → P (.mk t sp ep sb eb cs)) :
    ∀ n, P n
  | .mk t sp ep sb eb cs => by
    apply h
    intro c _
    exact TSNode.my_ind h c

theorem extractL_eq_aux (fp : PyPath) (code : List Char) (ds : List TSNode)
    (ih : ∀ c ∈ ds, extractChunks fp code c
        = ((preorderN c).filter (fun m => decide (m.type ∈ allowedKinds))).map (mkChunk fp code)) :
    extractChunksL fp code ds
      = ((preorderL ds).filter (fun m => decide (m.type ∈ allowedKinds))).map (mkChunk fp code) := by
  induction ds with
  | nil => simp [extractChunksL, preorderL]
  | cons c cs ihcs =>
      simp only [extractChunksL, preorderL, List.filter_append, List.map_append]
      rw [ih c (by simp), ihcs (fun d hd => ih d (by simp [hd]))]

/-- The walk emits exactly one chunk per allow-listed node, in depth-first
pre-order, with no re-sorting. -/
theorem extract_eq (fp : PyPath) (code : List Char) :
    ∀ n, extractChunks fp code n = (matchedNodes n).map (mkChunk fp code) := by
  apply TSNode.my_ind
  intro t sp ep sb eb cs ih
  have hl := extractL_eq_aux fp code cs ih
  simp only [matchedNodes, extractChunks, preorderN, List.filter_cons]
  rw [hl]
  by_cases h : t ∈ allowedKinds <;> simp [TSNode.type, h]

theorem mem_preorderL {m : TSNode} : ∀ {cs : List TSNode},
    m ∈ preorderL cs ↔ ∃ c ∈ cs, m ∈ preorderN c := by
  intro cs
  induction cs with
  | nil => simp [preorderL]
  | cons c cs ih => simp [preorderL, ih, List.mem_append]

theorem mem_preorderN_of_inSubtree {m n : TSNode} (h : InSubtree m n) : m ∈ preorderN n := by
  induction h with
  | refl =>
      cases m
      simp [preorderN]
  | step hc a ih =>
      rename_i c k
      cases k
      simp only [preorderN, List.mem_cons]
      refine Or.inr (mem_preorderL.mpr ⟨c, ?_, ih⟩)
      simpa [TSNode.children] using hc

theorem inSubtree_of_mem_preorderN {m : TSNode} : ∀ {n}, m ∈ preorderN n → InSubtree m n := by
  apply TSNode.my_ind (P := fun n => m ∈ preorderN n → InSubtree m n)
  intro t sp ep sb eb cs ih hm
  simp only [preorderN, List.mem_cons] at hm
  rcases hm with rfl | hm
  · exact InSubtree.refl _
  · obtain ⟨c, hc, hmc⟩ := mem_preorderL.mp hm
    exact InSubtree.step (c := c) (by simpa [TSNode.children] using hc) (ih c hc hmc)

theorem mem_preorderN_iff {m n : TSNode} : m ∈ preorderN n ↔ InSubtree m n :=
  ⟨inSubtree_of_mem_preorderN, mem_preorderN_of_inSubtree⟩

/-- Every emitted chunk comes from an allow-listed node of the tree. -/
theorem mem_extract_iff {fp : PyPath} {code : List Char} {c : Chunk} {n : TSNode} :
    c ∈ extractChunks fp code n
      ↔ ∃ m, InSubtree m n ∧ m.type ∈ allowedKinds ∧ c = mkChunk fp code m := by
  rw [extract_eq, List.mem_map]
  constructor
  · rintro ⟨m, hm, rfl⟩
    rw [matchedNodes, List.mem_filter] at hm
    exact ⟨m, mem_preorderN_iff.mp hm.1, of_decide_eq_true hm.2, rfl⟩
  · rintro ⟨m, hmem, hkind, rfl⟩
    refine ⟨m, ?_, rfl⟩
    rw [matchedNodes, List.mem_filter]
    exact ⟨mem_preorderN_iff.mpr hmem, decide_eq_true hkind⟩

theorem spanWFL_mem {sp ep : Point} {c : TSNode} : ∀ {cs : List TSNode},
    spanWFL sp ep cs = true → c ∈ cs →
    sp.row ≤ c.startPoint.row ∧ c.endPoint.row ≤ ep.row ∧ spanWF c = true := by
  intro cs
  induction cs with
  | nil => intro _ h; cases h
  | cons d ds ih =>
      intro hwf hc
      simp only [spanWFL, Bool.and_eq_true, decide_eq_true_eq] at hwf
      obtain ⟨⟨⟨h1, h2⟩, h3⟩, h4⟩ := hwf
      rcases List.mem_cons.mp hc with rfl | hc
      · exact ⟨h1, h2, h3⟩
      · exact ih h4 hc

theorem spanWF_children {n c : TSNode} (h : spanWF n = true) (hc : c ∈ n.children) :
    n.startPoint.row ≤ c.startPoint.row ∧ c.endPoint.row ≤ n.endPoint.row
      ∧ spanWF c = true := by
  cases n with
  | mk t sp ep sb eb cs =>
      simp only [spanWF, Bool.and_eq_true] at h
      simpa [TSNode.startPoint, TSNode.endPoint] using
        spanWFL_mem h.2 (by simpa [TSNode.children] using hc)

theorem spanWF_start_le_end {n : TSNode} (h : spanWF n = true) :
    n.startPoint.row ≤ n.endPoint.row := by
  cases n with
  | mk t sp ep sb eb cs =>
      simp only [spanWF, Bool.and_eq_true, decide_eq_true_eq] at h
      simpa [TSNode.startPoint, TSNode.endPoint] using h.1

/-- Row spans of descendants are contained in the ancestor's span. -/
theorem InSubtree.rows {m n : TSNode} (h : InSubtree m n) :
    spanWF n = true →
    n.startPoint.row ≤ m.startPoint.row ∧ m.endPoint.row ≤ n.endPoint.row
      ∧ spanWF m = true := by
  induction h with
  | refl => exact fun hwf => ⟨le_refl _, le_refl _, hwf⟩
  | step hc a ih =>
      intro hwf
      obtain ⟨h1, h2, h3⟩ := spanWF_children hwf hc
      obtain ⟨h4, h5, h6⟩ := ih h3
      exact ⟨le_trans h1 h4, le_trans h5 h2, h6⟩

theorem extractL_infix (fp : PyPath) (code : List Char) {c : TSNode} : ∀ {cs : List TSNode},
    c ∈ cs → ∃ pre suf, extractChunksL fp code cs = pre ++ extractChunks fp code c ++ suf := by
  intro cs
  induction cs with
  | nil => intro h; cases h
  | cons d ds ih =>
      intro hc
      rcases List.mem_cons.mp hc with rfl | hc
      · exact ⟨[], extractChunksL fp code ds, by simp [extractChunksL]⟩
      · obtain ⟨pre, suf, hps⟩ := ih hc
        exact ⟨extractChunks fp code d ++ pre, suf, by simp [extractChunksL, hps]⟩

/-- The chunks of a subtree occur contiguously inside the ancestor's output. -/
theorem extract_infix {fp : PyPath} {code : List Char} {m n : TSNode} (h : InSubtree m n) :
    ∃ pre suf, extractChunks fp code n = pre ++ extractChunks fp code m ++ suf := by
  induction h with
  | refl => exact ⟨[], [], by simp⟩
  | step hc a ih =>
      rename_i c k
      obtain ⟨pre1, suf1, h1⟩ := extractL_infix fp code hc
      obtain ⟨pre2, suf2, h2⟩ := ih
      cases k
      rename_i t sp ep sb eb cs
      refine ⟨(if t ∈ allowedKinds
          then [mkChunk fp code (.mk t sp ep sb eb cs)] else []) ++ pre1 ++ pre2,
        suf2 ++ suf1, ?_⟩
      simp only [extractChunks]
      rw [show (TSNode.mk t sp ep sb eb cs).children = cs from rfl] at h1
      rw [h1, h2]
      simp [List.append_assoc]

/-- A matched node's own chunk heads the output of its subtree. -/
theorem extract_matched {fp : PyPath} {code : List Char} {n : TSNode}
    (h : n.type ∈ allowedKinds) :
    extractChunks fp code n = mkChunk fp code n :: extractChunksL fp code n.children := by
  cases n with
  | mk t sp ep sb eb cs =>
      simp only [TSNode.type] at h
      simp [extractChunks, TSNode.children, if_pos h]

theorem extractL_nil_aux (fp : PyPath) (code : List Char) (cs : List TSNode)
    (ih : ∀ c ∈ cs, hasMatch c = false → extractChunks fp code c = [])
    (h : hasMatchL cs = false) : extractChunksL fp code cs = [] := by
  induction cs with
  | nil => simp [extractChunksL]
  | cons c cs ihcs =>
      simp only [hasMatchL, Bool.or_eq_false_iff] at h
      simp only [extractChunksL]
      rw [ih c (by simp) h.1, ihcs (fun d hd hmd => ih d (by simp [hd]) hmd) h.2]
      rfl

/-- A tree without any allow-listed node yields no chunks. -/
theorem extract_nil_of_no_match (fp : PyPath) (code : List Char) :
    ∀ n, hasMatch n = false → extractChunks fp code n = [] := by
  apply TSNode.my_ind (P := fun n => hasMatch n = false → extractChunks fp code n = [])
  intro t sp ep sb eb cs ih h
  simp only [hasMatch, Bool.or_eq_false_iff, decide_eq_false_iff_not] at h
  simp only [extractChunks, if_neg h.1, List.nil_append]
  exact extractL_nil_aux fp code cs ih h.2

/-! ### Injectivity of the decimal rendering, and of the chunk-id scheme -/

/-- Decimal value of a digit character. -/
def decChar (c : Char) : Nat := c.toNat - '0'.toNat

/-- Read a character list as a decimal numeral. -/
def decodeDec (l : List Char) : Nat := l.foldl (fun a c => 10 * a + decChar c) 0

theorem decChar_digitChar : ∀ d, d < 10 → decChar (Nat.digitChar d) = d := by decide

theorem decodeDec_append_singleton (xs : List Char) (c : Char) :
    decodeDec (xs ++ [c]) = 10 * decodeDec xs + decChar c := by
  simp [decodeDec, List.foldl_append]

theorem toDigitsCore_acc (b : Nat) : ∀ (f n : Nat) (l : List Char),
    Nat.toDigitsCore b f n l = Nat.toDigitsCore b f n [] ++ l := by
  intro f
  induction f with
  | zero => intro n l; simp [Nat.toDigitsCore]
  | succ f ih =>
      intro n l
      simp only [Nat.toDigitsCore]
      by_cases h : n / b = 0
      · simp [h]
      · simp only [h, if_neg h]
        rw [ih (n / b) (Nat.digitChar (n % b) :: l), ih (n / b) [Nat.digitChar (n % b)]]
        simp

theorem decodeDec_toDigitsCore : ∀ (f n : Nat), n < f →
    decodeDec (Nat.toDigitsCore 10 f n []) = n := by
  intro f
  induction f with
  | zero => intro n h; omega
  | succ f ih =>
      intro n h
      have hmod : n % 10 < 10 := Nat.mod_lt _ (by decide)
      simp only [Nat.toDigitsCore]
      by_cases hd : n / 10 = 0
      · have h10 : n < 10 := (Nat.div_eq_zero_iff (by decide)).mp hd
        simp [hd, decodeDec, Nat.mod_eq_of_lt h10, decChar_digitChar _ h10]
      · have hpos : 0 < n := by
          rcases Nat.eq_zero_or_pos n with rfl | hp
          · simp at hd
          · exact hp
        have hlt : n / 10 < n := Nat.div_lt_self hpos (by decide)
        rw [if_neg hd, toDigitsCore_acc, decodeDec_append_singleton]
        rw [ih (n / 10) (by omega), decChar_digitChar _ hmod]
        omega

/-- The decimal rendering of a natural number determines the number. -/
theorem repr_data_inj {a b : Nat} (h : (Nat.repr a).data = (Nat.repr b).data) : a = b := by
  have ha : decodeDec (Nat.repr a).data = a :=
    decodeDec_toDigitsCore (a + 1) a (Nat.lt_succ_self a)
  have hb : decodeDec (Nat.repr b).data = b :=
    decodeDec_toDigitsCore (b + 1) b (Nat.lt_succ_self b)
  rw [← ha, ← hb, h]

theorem cons_append_ne {a b : Char} {t1 t2 x y : List Char} (hab : a ≠ b) :
    (a :: t1) ++ x ≠ (b :: t2) ++ y := by
  intro h
  simp only [List.cons_append] at h
  injection h with h1 _
  exact hab h1

theorem kinds_head_ne {s1 s2 : String} {c1 c2 : Char} {t1 t2 x y : List Char}
    (e1 : s1.data = c1 :: t1) (e2 : s2.data = c2 :: t2) (hne : c1 ≠ c2) :
    s1.data ++ x ≠ s2.data ++ y := by
  rw [e1, e2]
  exact cons_append_ne hne

theorem append_cons_cancel {k : List Char} {r1 r2 : List Char}
    (h : k ++ '_' :: r1 = k ++ '_' :: r2) : r1 = r2 := by
  have h2 := List.append_cancel_left h
  injection h2

/-- The chunk-id scheme `"{name}::{kind}_{row}"` is injective in (kind, row)
as long as the kinds come from the allow-list. -/
theorem chunkId_inj {name k1 k2 : String} {r1 r2 : Nat}
    (h1 : k1 ∈ allowedKinds) (h2 : k2 ∈ allowedKinds)
    (h : name ++ "::" ++ k1 ++ "_" ++ Nat.repr r1 = name ++ "::" ++ k2 ++ "_" ++ Nat.repr r2) :
    k1 = k2 ∧ r1 = r2 := by
  have hu : "_".data = ['_'] := rfl
  have hd := congrArg String.data h
  simp only [String.data_append, List.append_assoc, hu, List.cons_append, List.nil_append] at hd
  have hk0 := List.append_cancel_left hd
  injection hk0 with h01 hk1
  injection hk1 with h02 hk
  simp only [allowedKinds, List.mem_cons, List.not_mem_nil, or_false] at h1 h2
  rcases h1 with rfl | rfl | rfl <;> rcases h2 with rfl | rfl | rfl <;>
    first
      | exact ⟨rfl, repr_data_inj (append_cons_cancel hk)⟩
      | exact absurd hk (kinds_head_ne rfl rfl (by decide))

/-! ### The claims -/

/-- C1 (code bug in the source): the claim says `chunk_text` is the
byte-exact substring of the decoded source between the node's byte
offsets, for every input file including non-ASCII ones.  The code slices
the decoded *string* by tree-sitter *byte* offsets
(`code[node.start_byte:node.end_byte]`), which diverges as soon as a
non-ASCII character precedes the node: on the file `"é\nfunc a() {}"` the
emitted chunk text is `"unc a() {}"` while the byte-exact substring
spanned by the function node (bytes 3 to 14) is `"func a() {}"`. -/
theorem C1_chunk_text_not_byte_exact :
    extractChunks exC1fp exC1code exC1root = [mkChunk exC1fp exC1code exC1fun] ∧
    (mkChunk exC1fp exC1code exC1fun).chunk_text = "unc a() \x7b\x7d".data ∧
    byteSlice exC1code exC1fun.startByte exC1fun.endByte = "func a() \x7b\x7d".data ∧
    (mkChunk exC1fp exC1code exC1fun).chunk_text
      ≠ byteSlice exC1code exC1fun.startByte exC1fun.endByte := by
  decide

/-- C5: the loader never raises for encoding problems — on a strict-decode
failure it re-reads with the replacement strategy, emits a non-fatal
diagnostic naming the file, and extraction proceeds on the replaced text;
a missing or unreadable file is propagated as an error; a clean read
yields no diagnostic. -/
theorem C5_loader_error_handling (fp : PyPath) (replaced code : List Char)
    (parse : List Char → TSNode) (m : String) :
    extract_code_chunks fp .decodeError replaced parse
        = .ok (extractChunks fp replaced (parse replaced), [nonUtf8Warning fp.full]) ∧
    nonUtf8Warning fp.full = "⚠️ Non-UTF8 bytes replaced in " ++ fp.full ∧
    extract_code_chunks fp (.ioError m) replaced parse = .error m ∧
    extract_code_chunks fp (.ok code) replaced parse
        = .ok (extractChunks fp code (parse code), []) :=
  ⟨rfl, rfl, rfl, rfl⟩

/-- C9: a readable file whose tree has no allow-listed node — the empty
file included — yields an empty chunk sequence and no error. -/
theorem C9_no_match_yields_empty (fp : PyPath) (code replaced : List Char)
    (parse : List Char → TSNode) (h : hasMatch (parse code) = false) :
    extract_code_chunks fp (.ok code) replaced parse = .ok ([], []) := by
  simp [extract_code_chunks, extract_nil_of_no_match fp code (parse code) h]

/-- Witness for C9 at the empty file. -/
theorem C9_witness :
    hasMatch (exEmptyParse []) = false ∧
    extract_code_chunks exFp (.ok []) [] exEmptyParse = .ok ([], []) :=
  ⟨by decide, C9_no_match_yields_empty exFp [] [] exEmptyParse (by decide)⟩

/-- C10: on the three allow-listed kinds, the implemented replace-all of
`"_declaration"` by the empty string coincides with the spec's stripping
of one trailing `"_declaration"` suffix, both yielding `class`, `struct`,
`function`; the two operations differ on kinds containing
`"_declaration"` in a non-final position. -/
theorem C10_replace_all_refines_suffix_strip :
    (stripDecl "class_declaration" = "class"
      ∧ stripDeclSuffixSpec "class_declaration" = "class") ∧
    (stripDecl "struct_declaration" = "struct"
      ∧ stripDeclSuffixSpec "struct_declaration" = "struct") ∧
    (stripDecl "function_declaration" = "function"
      ∧ stripDeclSuffixSpec "function_declaration" = "function") ∧
    stripDecl "foo_declaration_bar" = "foo_bar" ∧
    stripDeclSuffixSpec "foo_declaration_bar" = "foo_declaration_bar" ∧
    stripDecl "foo_declaration_bar" ≠ stripDeclSuffixSpec "foo_declaration_bar" := by
  decide

/-- C2: every extracted chunk's `chunk_id` is exactly
`"{file_name}::{kind}_{zero_based_start_line}"` for the matched node, and
a chunk starting at 1-based line 10 (0-based row 9) has an id ending in
`"_9"`. -/
theorem C2_chunk_id_format (fp : PyPath) (code : List Char) (root : TSNode) :
    ∀ c ∈ extractChunks fp code root,
      ∃ n, InSubtree n root ∧ n.type ∈ allowedKinds ∧ c = mkChunk fp code n ∧
        c.chunk_id = fp.name ++ "::" ++ n.type ++ "_" ++ Nat.repr n.startPoint.row ∧
        c.start_line = n.startPoint.row + 1 ∧
        (c.start_line = 10 → ['_', '9'] <:+ c.chunk_id.data) := by
  intro c hc
  obtain ⟨n, hin, hkind, rfl⟩ := mem_extract_iff.mp hc
  refine ⟨n, hin, hkind, rfl, rfl, rfl, ?_⟩
  intro h10
  have hrow : n.startPoint.row = 9 := by
    have h : n.startPoint.row + 1 = 10 := h10
    omega
  have hdata : (mkChunk fp code n).chunk_id.data
      = (fp.name ++ "::" ++ n.type).data ++ ['_', '9'] := by
    show (fp.name ++ "::" ++ n.type ++ "_" ++ Nat.repr n.startPoint.row).data = _
    rw [hrow, show Nat.repr 9 = "9" from rfl]
    simp only [String.data_append, List.append_assoc]
    rfl
  rw [hdata]
  exact List.suffix_append _ _

/-- Witness for C2 on a function declaration starting at 1-based line 10. -/
theorem C2_witness :
    (mkChunk exFp exCode exFun9) ∈ extractChunks exFp exCode exRoot9 ∧
    (∃ n, InSubtree n exRoot9 ∧ n.type ∈ allowedKinds
      ∧ (mkChunk exFp exCode exFun9) = mkChunk exFp exCode n ∧
      (mkChunk exFp exCode exFun9).chunk_id
        = exFp.name ++ "::" ++ n.type ++ "_" ++ Nat.repr n.startPoint.row ∧
      (mkChunk exFp exCode exFun9).start_line = n.startPoint.row + 1 ∧
      ((mkChunk exFp exCode exFun9).start_line = 10
        → ['_', '9'] <:+ (mkChunk exFp exCode exFun9).chunk_id.data)) :=
  ⟨by decide, C2_chunk_id_format exFp exCode exRoot9 _ (by decide)⟩

/-- C3: under the precondition that no two allow-listed nodes of the same
kind start at the same (0-based) line, the `chunk_id` values of one
extraction pass are pairwise distinct. -/
theorem C3_chunk_ids_distinct (fp : PyPath) (code : List Char) (root : TSNode)
    (h : (matchedNodes root).Pairwise
      (fun a b => ¬(a.type = b.type ∧ a.startPoint.row = b.startPoint.row))) :
    ((extractChunks fp code root).map Chunk.chunk_id).Nodup := by
  rw [extract_eq, List.map_map]
  refine List.Pairwise.map _ ?_ (List.Pairwise.and_mem.mp h)
  rintro a b ⟨ha, hb, hne⟩ heq
  apply hne
  have hka : a.type ∈ allowedKinds := by
    rw [matchedNodes, List.mem_filter] at ha
    exact of_decide_eq_true ha.2
  have hkb : b.type ∈ allowedKinds := by
    rw [matchedNodes, List.mem_filter] at hb
    exact of_decide_eq_true hb.2
  exact chunkId_inj hka hkb heq

/-- Witness for C3 on the nested class/function sample tree. -/
theorem C3_witness :
    (matchedNodes exRoot).Pairwise
      (fun a b => ¬(a.type = b.type ∧ a.startPoint.row = b.startPoint.row)) ∧
    ((extractChunks exFp exCode exRoot).map Chunk.chunk_id).Nodup :=
  ⟨by decide, C3_chunk_ids_distinct exFp exCode exRoot (by decide)⟩

/-- C4: extraction is a depth-first pre-order walk emitting one chunk per
allow-listed node and recursing into all children; an allow-listed node Y
nested inside an allow-listed node X yields its own chunk, listed after
X's chunk, with Y's line span contained in X's; the sequence is the
pre-order of the matched nodes, with no re-sorting. -/
theorem C4_preorder_and_nesting (fp : PyPath) (code : List Char) (root X Y : TSNode)
    (hwf : spanWF root = true) (hX : InSubtree X root)
    (hY : ∃ c ∈ X.children, InSubtree Y c)
    (hXk : X.type ∈ allowedKinds) (hYk : Y.type ∈ allowedKinds) :
    extractChunks fp code root = (matchedNodes root).map (mkChunk fp code) ∧
    (∃ pre suf, extractChunks fp code root = pre ++ extractChunks fp code X ++ suf) ∧
    extractChunks fp code X = mkChunk fp code X :: extractChunksL fp code X.children ∧
    mkChunk fp code Y ∈ extractChunksL fp code X.children ∧
    (mkChunk fp code X).start_line ≤ (mkChunk fp code Y).start_line ∧
    (mkChunk fp code Y).end_line ≤ (mkChunk fp code X).end_line := by
  obtain ⟨c, hc, hYc⟩ := hY
  have hYX : InSubtree Y X := InSubtree.step hc hYc
  have hwfX : spanWF X = true := (InSubtree.rows hX hwf).2.2
  obtain ⟨hsx, hex, hwfY⟩ := InSubtree.rows hYX hwfX
  refine ⟨extract_eq fp code root, extract_infix hX, extract_matched hXk, ?_, ?_, ?_⟩
  · obtain ⟨pre1, suf1, h1⟩ := extractL_infix fp code hc
    have hmem : mkChunk fp code Y ∈ extractChunks fp code c :=
      mem_extract_iff.mpr ⟨Y, hYc, hYk, rfl⟩
    rw [h1]
    simp [List.mem_append, hmem]
  · exact Nat.add_le_add_right hsx 1
  · exact Nat.add_le_add_right hex 1

/-- Witness for C4: the function nested in the class of the sample tree. -/
theorem C4_witness :
    spanWF exRoot = true ∧
    InSubtree exClass exRoot ∧
    (∃ c ∈ exClass.children, InSubtree exFun c) ∧
    exClass.type ∈ allowedKinds ∧ exFun.type ∈ allowedKinds ∧
    extractChunks exFp exCode exClass
      = mkChunk exFp exCode exClass :: extractChunksL exFp exCode exClass.children ∧
    mkChunk exFp exCode exFun ∈ extractChunksL exFp exCode exClass.children ∧
    (mkChunk exFp exCode exClass).start_line ≤ (mkChunk exFp exCode exFun).start_line ∧
    (mkChunk exFp exCode exFun).end_line ≤ (mkChunk exFp exCode exClass).end_line := by
  have hX : InSubtree exClass exRoot :=
    InSubtree.step (List.mem_cons_self _ _) (InSubtree.refl _)
  have hY : ∃ c ∈ exClass.children, InSubtree exFun c :=
    ⟨exFun, List.mem_cons_self _ _, InSubtree.refl _⟩
  have h := C4_preorder_and_nesting exFp exCode exRoot exClass exFun
    (by decide) hX hY (by decide) (by decide)
  exact ⟨by decide, hX, hY, by decide, by decide, h.2.2.1, h.2.2.2.1, h.2.2.2.2.1,
    h.2.2.2.2.2⟩

/-- C7: every chunk's `start_line` and `end_line` are the parser's 0-based
rows plus one, `start_line ≤ end_line` holds, and `lines` is the string
`"{start_line}-{end_line}"`. -/
theorem C7_line_numbers (fp : PyPath) (code : List Char) (root : TSNode)
    (hwf : spanWF root = true) :
    ∀ c ∈ extractChunks fp code root,
      ∃ n, InSubtree n root ∧ c = mkChunk fp code n ∧
        c.start_line = n.startPoint.row + 1 ∧ c.end_line = n.endPoint.row + 1 ∧
        c.start_line ≤ c.end_line ∧
        c.lines = Nat.repr c.start_line ++ "-" ++ Nat.repr c.end_line := by
  intro c hc
  obtain ⟨n, hin, hk, rfl⟩ := mem_extract_iff.mp hc
  have hwfn : spanWF n = true := (InSubtree.rows hin hwf).2.2
  have hle := spanWF_start_le_end hwfn
  exact ⟨n, hin, rfl, rfl, rfl, Nat.add_le_add_right hle 1, rfl⟩

/-- Witness for C7 on the class chunk of the sample tree. -/
theorem C7_witness :
    spanWF exRoot = true ∧
    mkChunk exFp exCode exClass ∈ extractChunks exFp exCode exRoot ∧
    (∃ n, InSubtree n exRoot ∧ mkChunk exFp exCode exClass = mkChunk exFp exCode n ∧
      (mkChunk exFp exCode exClass).start_line = n.startPoint.row + 1 ∧
      (mkChunk exFp exCode exClass).end_line = n.endPoint.row + 1 ∧
      (mkChunk exFp exCode exClass).start_line ≤ (mkChunk exFp exCode exClass).end_line ∧
      (mkChunk exFp exCode exClass).lines
        = Nat.repr (mkChunk exFp exCode exClass).start_line ++ "-"
            ++ Nat.repr (mkChunk exFp exCode exClass).end_line) :=
  ⟨by decide, by decide, C7_line_numbers exFp exCode exRoot (by decide) _ (by decide)⟩

/-- Three printed lines per rendered entry. -/
theorem entry_flatMap_length {S : Type} (fmt3 : S → String) (zero : S) :
    ∀ l : List (Nat × RChunk S),
      (l.flatMap fun p => entryLines fmt3 zero (p.1 + 1) p.2).length = 3 * l.length := by
  intro l
  induction l with
  | nil => simp
  | cons p ps ih =>
      rw [List.flatMap_cons, List.length_append, ih,
        show (entryLines fmt3 zero (p.1 + 1) p.2).length = 3 from rfl]
      simp only [List.length_cons]
      omega

/-- C6: if either the embedding or the search capability raises, the query
operation returns the structured failure record carrying the original
query, a zero count, an empty result list, the underlying message inside
the error message, and the process exits with status 1; a successful query
exits with status 0, so the exit status distinguishes the two. -/
theorem C6_failure_is_structured {S E : Type} (embed : String → Except String E)
    (search : E → Nat → Except String (List (RChunk S)))
    (q : String) (k : Nat) (e : String) :
    (embed q = .error e →
      query_racag_cli embed search q k
        = ⟨false, q, 0, [], some e, "Query failed: " ++ e⟩) ∧
    (∀ v, embed q = .ok v → search v k = .error e →
      query_racag_cli embed search q k
        = ⟨false, q, 0, [], some e, "Query failed: " ++ e⟩) ∧
    (∀ (r : QueryResult S) (fmt3 : S → String) zero renderJson format,
      r.success = false → (mainOutput fmt3 zero renderJson format r).exitCode = 1) ∧
    (∀ v rs, embed q = .ok v → search v k = .ok rs →
      (query_racag_cli embed search q k).success = true ∧
      ∀ (fmt3 : S → String) zero renderJson format,
        (mainOutput fmt3 zero renderJson format
          (query_racag_cli embed search q k)).exitCode = 0) := by
  refine ⟨?_, ?_, ?_, ?_⟩
  · intro h
    simp [query_racag_cli, h]
  · intro v h1 h2
    simp [query_racag_cli, h1, h2]
  · intro r fmt3 zero renderJson format h
    cases format <;> simp [mainOutput, h]
  · intro v rs h1 h2
    have hr : (query_racag_cli embed search q k).success = true := by
      simp [query_racag_cli, h1, h2]
    refine ⟨hr, ?_⟩
    intro fmt3 zero renderJson format
    cases format <;> simp [mainOutput, hr]

/-- Witness for C6 with capabilities failing and succeeding. -/
theorem C6_witness :
    embedFailEx "q" = .error "boom" ∧
    query_racag_cli embedFailEx searchOkEx "q" 5
      = ⟨false, "q", 0, [], some "boom", "Query failed: boom"⟩ ∧
    query_racag_cli embedOkEx searchFailEx "q" 5
      = ⟨false, "q", 0, [], some "index unavailable",
          "Query failed: index unavailable"⟩ ∧
    (mainOutput fmt3Ex () renderJsonEx .json
        (query_racag_cli embedFailEx searchOkEx "q" 5)).exitCode = 1 ∧
    (query_racag_cli embedOkEx searchOkEx "q" 5).success = true ∧
    (mainOutput fmt3Ex () renderJsonEx .json
        (query_racag_cli embedOkEx searchOkEx "q" 5)).exitCode = 0 := by
  have h1 := C6_failure_is_structured embedFailEx searchOkEx "q" 5 "boom"
  have h2 := C6_failure_is_structured embedOkEx searchFailEx "q" 5 "index unavailable"
  have h3 := C6_failure_is_structured embedOkEx searchOkEx "q" 5 "x"
  refine ⟨rfl, h1.1 rfl, h2.2.1 () rfl rfl, ?_, ?_, ?_⟩
  · exact h1.2.2.1 _ fmt3Ex () renderJsonEx .json (by rw [h1.1 rfl])
  · exact (h3.2.2.2 () [⟨none, none, none⟩] rfl rfl).1
  · exact (h3.2.2.2 () [⟨none, none, none⟩] rfl rfl).2 fmt3Ex () renderJsonEx .json

/-- C8: the human-readable rendering of a successful query prints at most
the first ten result entries — three lines per entry, with rank, the
three-decimal score, file path and line range — regardless of how many
results were requested or returned, while the structured result keeps the
full list and count. -/
theorem C8_display_cap {S E : Type} (fmt3 : S → String) (zero : S)
    (renderJson : QueryResult S → String) (embed : String → Except String E)
    (search : E → Nat → Except String (List (RChunk S)))
    (q : String) (k : Nat) (v : E) (rs : List (RChunk S))
    (h1 : embed q = .ok v) (h2 : search v k = .ok rs) :
    (query_racag_cli embed search q k).results = rs ∧
    (query_racag_cli embed search q k).results_count = rs.length ∧
    (mainOutput fmt3 zero renderJson .text (query_racag_cli embed search q k)).stdout
      = ("Query: " ++ q) :: ("Results: " ++ Nat.repr rs.length ++ "\n")
          :: ((rs.take 10).enum.flatMap fun p => entryLines fmt3 zero (p.1 + 1) p.2) ∧
    ((rs.take 10).enum.flatMap fun p => entryLines fmt3 zero (p.1 + 1) p.2).length
      = 3 * min 10 rs.length ∧
    (∀ i c, (i, c) ∈ (rs.take 10).enum →
      entryLines fmt3 zero (i + 1) c
        = [Nat.repr (i + 1) ++ ". [" ++ fmt3 (c.score.getD zero) ++ "] "
            ++ c.file_path.getD "unknown",
           "   Lines " ++ c.lines.getD "?-?", ""]) := by
  have hr : query_racag_cli embed search q k
      = ⟨true, q, rs.length, rs, none,
          "Retrieved " ++ Nat.repr rs.length ++ " relevant chunks"⟩ := by
    simp [query_racag_cli, h1, h2]
  refine ⟨by rw [hr], by rw [hr], ?_, ?_, ?_⟩
  · rw [hr]
    simp [mainOutput]
  · rw [entry_flatMap_length, List.enum_length, List.length_take]
  · intro i c _
    rfl

/-- Witness for C8: twelve results, thirty rendered entry lines. -/
theorem C8_witness :
    embedOkEx "q" = .ok () ∧ searchRep12 () 20 = .ok rep12 ∧
    (query_racag_cli embedOkEx searchRep12 "q" 20).results = rep12 ∧
    (query_racag_cli embedOkEx searchRep12 "q" 20).results_count = 12 ∧
    ((rep12.take 10).enum.flatMap fun p => entryLines fmt3Ex () (p.1 + 1) p.2).length
      = 30 := by
  have h := C8_display_cap fmt3Ex () renderJsonEx embedOkEx searchRep12 "q" 20 () rep12
    rfl rfl
  refine ⟨rfl, rfl, h.1, ?_, ?_⟩
  · rw [h.2.1]
    rfl
  · rw [h.2.2.2.1]
    rfl

end Racag
